import Mathlib

/-!
Verification of the ProseMirror/TipTap to Markdown converter of the
docmost-mcp repository, together with the subpages-placeholder
substitution performed by its caller `getPage`.

The converter (`convertProseMirrorToMarkdown`) is embedded shallowly:
document nodes become an inductive type mirroring the DocumentNode shape
(`type` tag, optional `attrs`, optional `marks`, `text`, optional
`content`), and every arm of the dispatch switch is translated from the
source. JavaScript string operations used by the source
(`Array.join`, `String.repeat`, `trim`, `replace`, `includes`,
`toUpperCase`) are given as executable Lean functions. The JavaScript
idiom `x || default` on attribute reads is modelled by `jsOrStr` /
`jsOrNat` / falsy-aware tests, because in the source a present-but-falsy
attribute (empty string, zero, false) also selects the default.

A second, dynamically typed model (`JsValue`, `processNodeJs`) embeds the
same code over arbitrary JavaScript values, including property access on
`null` (which throws a TypeError); it is used to settle the robustness
claim about malformed input.
-/

/-- The set of characters removed by JavaScript `String.prototype.trim`
that can occur here: the ASCII whitespace characters plus NBSP and the
BOM. -/
def isJsWhitespace (c : Char) : Bool :=
  c = ' ' || c = '\t' || c = '\n' || c = '\r' ||
  c = '\x0b' || c = '\x0c' || c.toNat = 0xA0 || c.toNat = 0xFEFF

/-- Characters of a string after JavaScript `trim`: leading and trailing
whitespace removed. -/
def jsTrimChars (l : List Char) : List Char :=
  ((l.dropWhile isJsWhitespace).reverse.dropWhile isJsWhitespace).reverse

/-- JavaScript `String.prototype.trim`. -/
def jsTrim (s : String) : String :=
  String.mk (jsTrimChars s.data)

/-- JavaScript `Array.prototype.join(sep)` on a list of strings. -/
def joinSep (sep : String) : List String → String
  | [] => ""
  | [s] => s
  | s :: rest => s ++ sep ++ joinSep sep rest

/-- JavaScript `String.prototype.repeat`: `strRepeat s n` is `n` copies
of `s` concatenated. -/
def strRepeat (s : String) (n : Nat) : String :=
  joinSep "" (List.replicate n s)

/-- JavaScript `String.prototype.toUpperCase` restricted to the ASCII
letters that occur in the callout labels. -/
def upperStr (s : String) : String :=
  String.mk (s.data.map Char.toUpper)

/-- The indexed map `lines.map((line, i) => i === 0 ? prefix + " " + line
: "  " + line)` used by `processListItem`, with the running index made
explicit. -/
def markLinesFrom (pfx : String) : Nat → List String → List String
  | _, [] => []
  | i, line :: rest =>
    (if i = 0 then pfx ++ " " ++ line else "  " ++ line)
      :: markLinesFrom pfx (i + 1) rest

/-- The marker and indentation pass of `processListItem`, starting at
index zero. -/
def markFirstRest (pfx : String) (lines : List String) : List String :=
  markLinesFrom pfx 0 lines

/-- Character level model of `String.prototype.replace(/\n/g, repl)`:
every newline character is replaced by `repl`. -/
def replaceNewlinesChars (repl : List Char) : List Char → List Char
  | [] => []
  | c :: t =>
    if c = '\n' then repl ++ replaceNewlinesChars repl t
    else c :: replaceNewlinesChars repl t

/-- String level wrapper for `replaceNewlinesChars`. -/
def replaceNewlines (s repl : String) : String :=
  String.mk (replaceNewlinesChars repl.data s.data)

/-- Character level model of JavaScript `String.prototype.includes`. -/
def hasSubChars (pat : List Char) : List Char → Bool
  | [] => pat.isEmpty
  | c :: t => pat.isPrefixOf (c :: t) || hasSubChars pat t

/-- JavaScript `String.prototype.includes`. -/
def hasSub (s pat : String) : Bool :=
  hasSubChars pat.data s.data

/-- Character level model of JavaScript
`String.prototype.replace(pat, repl)` with a string pattern: only the
first occurrence of `pat` is replaced; the string is unchanged when
`pat` does not occur. -/
def replaceFirstChars (pat repl : List Char) : List Char → List Char
  | [] => if pat.isPrefixOf ([] : List Char) then repl else []
  | c :: t =>
    if pat.isPrefixOf (c :: t) then repl ++ (c :: t).drop pat.length
    else c :: replaceFirstChars pat repl t

/-- JavaScript `String.prototype.replace` with a string pattern. -/
def replaceFirst (s pat repl : String) : String :=
  String.mk (replaceFirstChars pat.data repl.data s.data)

/-- Test that a string starts with the given pattern. -/
def startsWithStr (pat s : String) : Bool :=
  pat.data.isPrefixOf s.data

/-- The attributes read by the converter. All fields are optional, in
line with the DocumentNode data model where every `attrs` entry may be
absent. -/
structure Attrs where
  textAlign : Option String := none
  level : Option Nat := none
  language : Option String := none
  checked : Option Bool := none
  src : Option String := none
  alt : Option String := none
  caption : Option String := none
  latex : Option String := none
  label : Option String := none
  id : Option String := none
  fileName : Option String := none
  href : Option String := none
  color : Option String := none
  type : Option String := none
deriving Repr, DecidableEq

/-- The JavaScript default idiom `v || d` for an optional string
attribute: a present but empty string is falsy and also selects the
default. -/
def jsOrStr (o : Option String) (d : String) : String :=
  match o with
  | some s => if s = "" then d else s
  | none => d

/-- The JavaScript default idiom `v || d` for an optional numeric
attribute: a present zero is falsy and selects the default. -/
def jsOrNat (o : Option Nat) (d : Nat) : Nat :=
  match o with
  | some n => if n = 0 then d else n
  | none => d

/-- An inline decoration descriptor attached to a text leaf: a kind tag
and its own attributes (`href` for links, `color` for highlight and
textStyle). -/
structure Mark where
  type : String
  attrs : Attrs := {}
deriving Repr, DecidableEq

/-- One iteration of the mark loop of the `text` arm of `processNode`:
wrap the current string according to the kind of a single mark. Unknown
kinds leave the string unchanged (no default arm in the source switch).
-/
def applyMark (textContent : String) (mark : Mark) : String :=
  match mark.type with
  | "bold" => "**" ++ textContent ++ "**"
  | "italic" => "*" ++ textContent ++ "*"
  | "code" => "`" ++ textContent ++ "`"
  | "link" => "[" ++ textContent ++ "](" ++ jsOrStr mark.attrs.href "" ++ ")"
  | "strike" => "~~" ++ textContent ++ "~~"
  | "underline" => "<u>" ++ textContent ++ "</u>"
  | "subscript" => "<sub>" ++ textContent ++ "</sub>"
  | "superscript" => "<sup>" ++ textContent ++ "</sup>"
  | "highlight" =>
    "<mark style=\"background-color: " ++ jsOrStr mark.attrs.color "yellow"
      ++ "\">" ++ textContent ++ "</mark>"
  | "textStyle" =>
    match mark.attrs.color with
    | some c => if c = "" then textContent
                else "<span style=\"color: " ++ c ++ "\">" ++ textContent ++ "</span>"
    | none => textContent
  | _ => textContent

/-- The whole mark loop: `for (const mark of node.marks)` reassigning
`textContent` at each step is a left fold over the mark sequence. -/
def applyMarks (textContent : String) (marks : List Mark) : String :=
  marks.foldl applyMark textContent

/-!
A DocumentNode, mirroring the shape consumed by the converter. The
optional `content` array is encoded by the pair of `hasContent` (whether
the field is present; only the top level entry point distinguishes a
present array from an absent field, since `processNode` reads
`node.content || []`) and `content` (the children, empty when the field
is absent). `NodeList` is a specialised list so that the recursion of
the converter is structural.
-/
mutual

inductive Node where
  | mk (type : String) (attrs : Attrs) (marks : List Mark) (text : String)
       (hasContent : Bool) (content : NodeList)

inductive NodeList where
  | nil
  | cons (head : Node) (tail : NodeList)

end

deriving instance DecidableEq for Node


/-- The `type` tag of a node. -/
def Node.type : Node → String
  | .mk t _ _ _ _ _ => t

/-- The `attrs` record of a node. -/
def Node.attrs : Node → Attrs
  | .mk _ a _ _ _ _ => a

/-- The `marks` sequence of a node. -/
def Node.marks : Node → List Mark
  | .mk _ _ m _ _ _ => m

/-- The `text` field of a node (empty when absent, as in `node.text || ""`). -/
def Node.text : Node → String
  | .mk _ _ _ s _ _ => s

/-- Whether the `content` field is present on the node. -/
def Node.hasContent : Node → Bool
  | .mk _ _ _ _ h _ => h

/-- The children of a node. -/
def Node.content : Node → NodeList
  | .mk _ _ _ _ _ c => c

/-- Default node, for `List.headI` on child lists. -/
instance : Inhabited Node :=
  ⟨Node.mk "" {} [] "" false .nil⟩

/-- Conversion from ordinary lists. -/
def NodeList.ofList : List Node → NodeList
  | [] => .nil
  | c :: rest => .cons c (NodeList.ofList rest)

/-- Conversion to ordinary lists. -/
def NodeList.toList : NodeList → List Node
  | .nil => []
  | .cons c rest => c :: NodeList.toList rest

mutual

/-- The dispatch of the converter: one arm per `case` of the `switch` in
the source, in source order, with the source defaulting rules
(`node.attrs?.x || d` becomes `jsOrStr`/`jsOrNat`/`Option.getD`, and the
truthiness tests on `align`, `imgCaption` and `mark.attrs?.color` treat
an empty string as false). The four string literals that the source
stores in a cp1252-mojibake form (video, youtube, attachment, drawio,
excalidraw, embed, subpages) are reproduced with exactly the code points
the file contains. -/
def processNode : Node → String
  | .mk type attrs marks text _ cs =>
    match type with
    | "doc" => joinSep "\n\n" (processNodes cs)
    | "paragraph" =>
      let t := joinSep "" (processNodes cs)
      match attrs.textAlign with
      | some align =>
        if align ≠ "" ∧ align ≠ "left" then
          "<div align=\"" ++ align ++ "\">" ++ t ++ "</div>"
        else t
      | none => t
    | "heading" =>
      let level := jsOrNat attrs.level 1
      strRepeat "#" level ++ " " ++ joinSep "" (processNodes cs)
    | "text" => applyMarks text marks
    | "codeBlock" =>
      let language := jsOrStr attrs.language ""
      "```" ++ language ++ "\n" ++ joinSep "" (processNodes cs) ++ "\n```"
    | "bulletList" => joinSep "\n" (processItems cs "-")
    | "orderedList" => joinSep "\n" (processOrderedItems cs 0)
    | "taskList" => joinSep "\n" (processTaskItems cs)
    | "taskItem" =>
      let checked := attrs.checked.getD false
      let checkbox := if checked then "[x]" else "[ ]"
      "- " ++ checkbox ++ " " ++ joinSep "\n" (processNodes cs)
    | "listItem" => joinSep "\n" (processNodes cs)
    | "blockquote" =>
      joinSep "\n" ((processNodes cs).map (fun s => "> " ++ s))
    | "horizontalRule" => "---"
    | "hardBreak" => "\n"
    | "image" =>
      let imgAlt := jsOrStr attrs.alt ""
      let imgSrc := jsOrStr attrs.src ""
      let imgCaption := jsOrStr attrs.caption ""
      "![" ++ imgAlt ++ "](" ++ imgSrc ++ ")" ++
        (if imgCaption ≠ "" then "\n*" ++ imgCaption ++ "*" else "")
    | "video" =>
      "ðŸŽ¥ [Video](" ++ jsOrStr attrs.src "" ++ ")"
    | "youtube" =>
      "ðŸ“º [YouTube Video](" ++ jsOrStr attrs.src "" ++ ")"
    | "table" => joinSep "\n" (processNodes cs)
    | "tableRow" => "| " ++ joinSep " | " (processNodes cs) ++ " |"
    | "tableCell" => joinSep "" (processNodes cs)
    | "tableHeader" => joinSep "" (processNodes cs)
    | "callout" =>
      let calloutType := jsOrStr attrs.type "info"
      let calloutContent := joinSep "\n" (processNodes cs)
      "> **" ++ upperStr calloutType ++ "**\n> " ++
        replaceNewlines calloutContent "\n> "
    | "details" => joinSep "\n" (processNodes cs)
    | "detailsSummary" =>
      "<details>\n<summary>" ++ joinSep "" (processNodes cs) ++ "</summary>\n"
    | "detailsContent" =>
      joinSep "\n" (processNodes cs) ++ "\n</details>"
    | "mathInline" => "$" ++ jsOrStr attrs.latex "" ++ "$"
    | "mathBlock" => "$$\n" ++ jsOrStr attrs.latex "" ++ "\n$$"
    | "mention" => "@" ++ jsOrStr attrs.label (jsOrStr attrs.id "")
    | "attachment" =>
      let attachmentName := jsOrStr attrs.fileName "attachment"
      let attachmentUrl := jsOrStr attrs.src ""
      "ðŸ“Ž [" ++ attachmentName ++ "](" ++ attachmentUrl ++ ")"
    | "drawio" => "ðŸ“Š [Draw.io Diagram]"
    | "excalidraw" => "âœï¸ [Excalidraw Drawing]"
    | "embed" =>
      "ðŸ”— [Embedded Content](" ++ jsOrStr attrs.src "" ++ ")"
    | "subpages" => "ðŸ“‘ [Subpages List]"
    | _ => joinSep "" (processNodes cs)

/-- The inline `nodeContent.map(processNode)` of the source. -/
def processNodes : NodeList → List String
  | .nil => []
  | .cons c rest => processNode c :: processNodes rest

/-- The inline `nodeContent.map(item => processListItem(item, "-"))` of
the bulletList arm. -/
def processItems : NodeList → String → List String
  | .nil, _ => []
  | .cons c rest, pfx => processListItem c pfx :: processItems rest pfx

/-- The inline `nodeContent.map((item, index) => processListItem(item,
(index + 1) + "."))` of the orderedList arm. -/
def processOrderedItems : NodeList → Nat → List String
  | .nil, _ => []
  | .cons c rest, i =>
    processListItem c (toString (i + 1) ++ ".") :: processOrderedItems rest (i + 1)

/-- The inline `nodeContent.map(item => processTaskItem(item))` of the
taskList arm. -/
def processTaskItems : NodeList → List String
  | .nil => []
  | .cons c rest => processTaskItem c :: processTaskItems rest

/-- The helper `processListItem` of the source: render the children of
the item, put the marker before the first rendered child and two spaces
before each later rendered child, and join with newlines. The source
names the per-child renderings `lines`, but a single child may itself
render to several physical lines. -/
def processListItem : Node → String → String
  | .mk _ _ _ _ _ cs, pfx =>
    joinSep "\n" (markFirstRest pfx (processNodes cs))

/-- The helper `processTaskItem` of the source: checkbox from
`item.attrs?.checked || false`, children joined with the empty string. -/
def processTaskItem : Node → String
  | .mk _ attrs _ _ _ cs =>
    let checked := attrs.checked.getD false
    let checkbox := if checked then "[x]" else "[ ]"
    "- " ++ checkbox ++ " " ++ joinSep "" (processNodes cs)

end

/-- The top level entry point: `if (!content || !content.content) return ""`
followed by `processNode(content).trim()`. An absent root is `none`; a
root whose `content` field is absent has `hasContent = false`. A present
empty array is truthy in JavaScript and does not trigger the early
return. -/
def convertProseMirrorToMarkdown : Option Node → String
  | none => ""
  | some root => if root.hasContent then jsTrim (processNode root) else ""

/-- Convenience constructor: a node with the given tag and children, no
attributes, no marks, empty text, `content` field present. -/
def mkNode (t : String) (cs : List Node) : Node :=
  .mk t {} [] "" true (NodeList.ofList cs)

/-- Convenience constructor: a node with the given tag, attributes and
children. -/
def mkNodeA (t : String) (a : Attrs) (cs : List Node) : Node :=
  .mk t a [] "" true (NodeList.ofList cs)

/-- Convenience constructor: a text leaf without marks. -/
def mkText (s : String) : Node :=
  .mk "text" {} [] s false .nil

/-- Convenience constructor: a text leaf with marks. -/
def mkTextM (s : String) (ms : List Mark) : Node :=
  .mk "text" {} ms s false .nil

/-- Convenience constructor: a mark with only a kind tag. -/
def mkMark (t : String) : Mark :=
  { type := t }


/-!
A dynamically typed model of the same code. The converter is declared
over `any`, so its behaviour on malformed input is governed by the
JavaScript semantics of property access and coercion, not by the
DocumentNode shape. `JsValue` is a model of the JavaScript values that
can reach the converter (numbers restricted to integers; float specific
behaviour is out of scope, as the converter performs no arithmetic
beyond `index + 1`). Property access on `null` or `undefined` throws a
TypeError; calling `.map`, `.trim` or `.toUpperCase` on a value that
lacks the method throws a TypeError. Exceptions are modelled by
`Except String` with the error name as the message.
-/
mutual

inductive JsValue where
  | vnull
  | vundefined
  | vbool (b : Bool)
  | vnum (n : Int)
  | vstr (s : String)
  | varr (xs : JsList)
  | vobj (fs : JsFields)

inductive JsList where
  | nil
  | cons (head : JsValue) (tail : JsList)

inductive JsFields where
  | fnil
  | fcons (key : String) (value : JsValue) (tail : JsFields)

end

deriving instance DecidableEq for JsValue


/-- Lookup of an own property in an object literal. -/
def JsFields.lookup : JsFields → String → Option JsValue
  | .fnil, _ => none
  | .fcons k v t, key => if k = key then some v else JsFields.lookup t key

/-- JavaScript property read `v[key]`: throws a TypeError on `null` and
`undefined`; reads the field of an object, defaulting to `undefined`;
yields `undefined` on every other value, since none of the keys the
converter reads (`type`, `content`, `text`, `marks`, `attrs`, mark
fields) is a property of a primitive or of an array. -/
def getProp : JsValue → String → Except String JsValue
  | .vnull, _ => .error "TypeError"
  | .vundefined, _ => .error "TypeError"
  | .vobj fs, key => .ok ((fs.lookup key).getD .vundefined)
  | _, _ => .ok .vundefined

/-- JavaScript truthiness. -/
def truthy : JsValue → Bool
  | .vnull => false
  | .vundefined => false
  | .vbool b => b
  | .vnum n => n ≠ 0
  | .vstr s => s ≠ ""
  | .varr _ => true
  | .vobj _ => true

/-- The JavaScript `a || b` on values. -/
def jsOr (a b : JsValue) : JsValue :=
  if truthy a then a else b

mutual

/-- JavaScript ToString as used by template literals and string
concatenation. -/
def toStr : JsValue → String
  | .vnull => "null"
  | .vundefined => "undefined"
  | .vbool b => if b then "true" else "false"
  | .vnum n => toString n
  | .vstr s => s
  | .varr xs => toStrList xs
  | .vobj _ => "[object Object]"

/-- `Array.prototype.toString`, which is `join(",")`; `null` and
`undefined` elements become empty strings there. -/
def toStrList : JsList → String
  | .nil => ""
  | .cons v .nil =>
    (match v with
     | .vnull => ""
     | .vundefined => ""
     | w => toStr w)
  | .cons v t =>
    (match v with
     | .vnull => ""
     | .vundefined => ""
     | w => toStr w) ++ "," ++ toStrList t

end

/-- `Array.prototype.join(sep)`: elements are stringified, with `null`
and `undefined` becoming empty strings. -/
def jsJoin (sep : String) (vals : List JsValue) : String :=
  joinSep sep (vals.map fun v =>
    match v with
    | .vnull => ""
    | .vundefined => ""
    | w => toStr w)

/-- Decimal integer parsing for JavaScript ToNumber on strings: the
empty (or all whitespace) string is zero, an optional sign followed by
digits is its value, anything else is NaN (`none`). Non-decimal numeric
string forms never arise here. -/
def parseNumeric (s : String) : Option Int :=
  let t := jsTrimChars s.data
  if t = [] then some 0
  else
    let core := match t with
      | '-' :: ds => some (true, ds)
      | '+' :: ds => some (false, ds)
      | ds => some (false, ds)
    match core with
    | some (neg, ds) =>
      if ds ≠ [] ∧ ds.all Char.isDigit then
        let v : Int := Int.ofNat (ds.foldl (fun a c => a * 10 + (c.toNat - 48)) 0)
        some (if neg then -v else v)
      else none
    | none => none

/-- JavaScript ToNumber on the values of this model (`none` is NaN). -/
def toNum : JsValue → Option Int
  | .vnull => some 0
  | .vundefined => none
  | .vbool b => some (if b then 1 else 0)
  | .vnum n => some n
  | .vstr s => parseNumeric s
  | .varr xs => parseNumeric (toStrList xs)
  | .vobj _ => none

/-- `String.prototype.repeat` with a JavaScript count: the count is
coerced with ToIntegerOrInfinity (NaN becomes zero) and a negative count
throws a RangeError. -/
def jsRepeat (s : String) (v : JsValue) : Except String String :=
  match toNum v with
  | none => .ok ""
  | some n => if n < 0 then .error "RangeError" else .ok (strRepeat s n.toNat)

/-- A `.toUpperCase()` method call: only strings have the method. -/
def jsToUpperCall : JsValue → Except String String
  | .vstr s => .ok (upperStr s)
  | _ => .error "TypeError"

/-- The optional chain `base.attrs?.key`: reads `attrs` (which may
throw), gives `undefined` when `attrs` is `null` or `undefined`, and
otherwise reads the field. -/
def attrReadJs (base : JsValue) (key : String) : Except String JsValue := do
  let a ← getProp base "attrs"
  match a with
  | .vnull => pure .vundefined
  | .vundefined => pure .vundefined
  | other => getProp other key

/-- A string as a list of its characters as JavaScript values, for
`for..of` iteration over a string. -/
def stringToJsList : List Char → JsList
  | [] => .nil
  | c :: t => .cons (.vstr (String.mk [c])) (stringToJsList t)

/-- `for..of` iteration: arrays iterate their elements, strings iterate
their characters, any other (truthy) value is not iterable and throws a
TypeError. The falsy values never reach this point because of the
`if (node.marks)` guard. -/
def jsIterate : JsValue → Except String JsList
  | .varr xs => .ok xs
  | .vstr s => .ok (stringToJsList s.data)
  | _ => .error "TypeError"

/-- The mark loop of the `text` arm over dynamic values: each iteration
reads `mark.type` (throwing on a `null` mark) and rewraps the current
value through a template literal, which stringifies it. -/
def applyMarksJs : JsValue → JsList → Except String JsValue
  | cur, .nil => .ok cur
  | cur, .cons mark rest => do
    let mt ← getProp mark "type"
    let next ←
      match mt with
      | .vstr mtype =>
        match mtype with
        | "bold" => pure (JsValue.vstr ("**" ++ toStr cur ++ "**"))
        | "italic" => pure (JsValue.vstr ("*" ++ toStr cur ++ "*"))
        | "code" => pure (JsValue.vstr ("`" ++ toStr cur ++ "`"))
        | "link" => do
          let href := jsOr (← attrReadJs mark "href") (.vstr "")
          pure (JsValue.vstr ("[" ++ toStr cur ++ "](" ++ toStr href ++ ")"))
        | "strike" => pure (JsValue.vstr ("~~" ++ toStr cur ++ "~~"))
        | "underline" => pure (JsValue.vstr ("<u>" ++ toStr cur ++ "</u>"))
        | "subscript" => pure (JsValue.vstr ("<sub>" ++ toStr cur ++ "</sub>"))
        | "superscript" => pure (JsValue.vstr ("<sup>" ++ toStr cur ++ "</sup>"))
        | "highlight" => do
          let color := jsOr (← attrReadJs mark "color") (.vstr "yellow")
          pure (JsValue.vstr ("<mark style=\"background-color: " ++ toStr color
            ++ "\">" ++ toStr cur ++ "</mark>"))
        | "textStyle" => do
          let colorv ← attrReadJs mark "color"
          if truthy colorv then
            pure (JsValue.vstr ("<span style=\"color: " ++ toStr colorv
              ++ "\">" ++ toStr cur ++ "</span>"))
          else pure cur
        | _ => pure cur
      | _ => pure cur
    applyMarksJs next rest

mutual

/-- The converter body over dynamic values. The fuel argument bounds the
recursion depth and models the call stack: exhausting it yields the
stack overflow failure mode that the converter does not guard against.
Every arm follows the source in evaluation order, so that the first
exception of the source is the first exception here. -/
def processNodeJs : Nat → JsValue → Except String JsValue
  | 0, _ => .error "StackOverflow"
  | fuel + 1, node => do
    let type ← getProp node "type"
    let contentRaw ← getProp node "content"
    let nodeContent := jsOr contentRaw (.varr .nil)
    match type with
    | .vstr ty =>
      match ty with
      | "doc" => do
        pure (.vstr (jsJoin "\n\n" (← jsMapProcess fuel nodeContent)))
      | "paragraph" => do
        let text := jsJoin "" (← jsMapProcess fuel nodeContent)
        let align ← attrReadJs node "textAlign"
        if truthy align ∧ align ≠ .vstr "left" then
          pure (.vstr ("<div align=\"" ++ toStr align ++ "\">" ++ text ++ "</div>"))
        else
          pure (.vstr text)
      | "heading" => do
        let level := jsOr (← attrReadJs node "level") (.vnum 1)
        let headingText := jsJoin "" (← jsMapProcess fuel nodeContent)
        pure (.vstr ((← jsRepeat "#" level) ++ " " ++ headingText))
      | "text" => do
        let textRaw ← getProp node "text"
        let textContent := jsOr textRaw (.vstr "")
        let marks ← getProp node "marks"
        if truthy marks then
          applyMarksJs textContent (← jsIterate marks)
        else
          pure textContent
      | "codeBlock" => do
        let language := jsOr (← attrReadJs node "language") (.vstr "")
        let code := jsJoin "" (← jsMapProcess fuel nodeContent)
        pure (.vstr ("```" ++ toStr language ++ "\n" ++ code ++ "\n```"))
      | "bulletList" => do
        pure (.vstr (joinSep "\n" (← mapListItemsJs fuel nodeContent "-")))
      | "orderedList" => do
        pure (.vstr (joinSep "\n" (← mapOrderedItemsJs fuel nodeContent 0)))
      | "taskList" => do
        pure (.vstr (joinSep "\n" (← mapTaskItemsJs fuel nodeContent)))
      | "taskItem" => do
        let checked := jsOr (← attrReadJs node "checked") (.vbool false)
        let checkbox := if truthy checked then "[x]" else "[ ]"
        pure (.vstr ("- " ++ checkbox ++ " "
          ++ jsJoin "\n" (← jsMapProcess fuel nodeContent)))
      | "listItem" => do
        pure (.vstr (jsJoin "\n" (← jsMapProcess fuel nodeContent)))
      | "blockquote" => do
        let parts ← jsMapProcess fuel nodeContent
        pure (.vstr (joinSep "\n" (parts.map fun v => "> " ++ toStr v)))
      | "horizontalRule" => pure (.vstr "---")
      | "hardBreak" => pure (.vstr "\n")
      | "image" => do
        let imgAlt := jsOr (← attrReadJs node "alt") (.vstr "")
        let imgSrc := jsOr (← attrReadJs node "src") (.vstr "")
        let imgCaption := jsOr (← attrReadJs node "caption") (.vstr "")
        pure (.vstr ("![" ++ toStr imgAlt ++ "](" ++ toStr imgSrc ++ ")"
          ++ (if truthy imgCaption then "\n*" ++ toStr imgCaption ++ "*" else "")))
      | "video" => do
        let videoSrc := jsOr (← attrReadJs node "src") (.vstr "")
        pure (.vstr ("ðŸŽ¥ [Video](" ++ toStr videoSrc ++ ")"))
      | "youtube" => do
        let youtubeUrl := jsOr (← attrReadJs node "src") (.vstr "")
        pure (.vstr ("ðŸ“º [YouTube Video](" ++ toStr youtubeUrl ++ ")"))
      | "table" => do
        pure (.vstr (jsJoin "\n" (← jsMapProcess fuel nodeContent)))
      | "tableRow" => do
        pure (.vstr ("| " ++ jsJoin " | " (← jsMapProcess fuel nodeContent) ++ " |"))
      | "tableCell" => do
        pure (.vstr (jsJoin "" (← jsMapProcess fuel nodeContent)))
      | "tableHeader" => do
        pure (.vstr (jsJoin "" (← jsMapProcess fuel nodeContent)))
      | "callout" => do
        let calloutType := jsOr (← attrReadJs node "type") (.vstr "info")
        let calloutContent := jsJoin "\n" (← jsMapProcess fuel nodeContent)
        pure (.vstr ("> **" ++ (← jsToUpperCall calloutType) ++ "**\n> "
          ++ replaceNewlines calloutContent "\n> "))
      | "details" => do
        pure (.vstr (jsJoin "\n" (← jsMapProcess fuel nodeContent)))
      | "detailsSummary" => do
        pure (.vstr ("<details>\n<summary>"
          ++ jsJoin "" (← jsMapProcess fuel nodeContent) ++ "</summary>\n"))
      | "detailsContent" => do
        pure (.vstr (jsJoin "\n" (← jsMapProcess fuel nodeContent) ++ "\n</details>"))
      | "mathInline" => do
        let inlineMath := jsOr (← attrReadJs node "latex") (.vstr "")
        pure (.vstr ("$" ++ toStr inlineMath ++ "$"))
      | "mathBlock" => do
        let blockMath := jsOr (← attrReadJs node "latex") (.vstr "")
        pure (.vstr ("$$\n" ++ toStr blockMath ++ "\n$$"))
      | "mention" => do
        let labelv ← attrReadJs node "label"
        let idv ← attrReadJs node "id"
        let mentionLabel := jsOr labelv (jsOr idv (.vstr ""))
        pure (.vstr ("@" ++ toStr mentionLabel))
      | "attachment" => do
        let attachmentName := jsOr (← attrReadJs node "fileName") (.vstr "attachment")
        let attachmentUrl := jsOr (← attrReadJs node "src") (.vstr "")
        pure (.vstr ("ðŸ“Ž [" ++ toStr attachmentName ++ "](" ++ toStr attachmentUrl ++ ")"))
      | "drawio" => pure (.vstr "ðŸ“Š [Draw.io Diagram]")
      | "excalidraw" => pure (.vstr "âœï¸ [Excalidraw Drawing]")
      | "embed" => do
        let embedUrl := jsOr (← attrReadJs node "src") (.vstr "")
        pure (.vstr ("ðŸ”— [Embedded Content](" ++ toStr embedUrl ++ ")"))
      | "subpages" => pure (.vstr "ðŸ“‘ [Subpages List]")
      | _ => do
        pure (.vstr (jsJoin "" (← jsMapProcess fuel nodeContent)))
    | _ => do
      pure (.vstr (jsJoin "" (← jsMapProcess fuel nodeContent)))

/-- The call `value.map(processNode)`: a TypeError unless the value is
an array. -/
def jsMapProcess : Nat → JsValue → Except String (List JsValue)
  | 0, _ => .error "StackOverflow"
  | fuel + 1, v =>
    match v with
    | .varr xs => mapProcessListJs fuel xs
    | _ => .error "TypeError"

/-- Mapping `processNode` over the elements of an array. -/
def mapProcessListJs : Nat → JsList → Except String (List JsValue)
  | 0, _ => .error "StackOverflow"
  | _ + 1, .nil => pure []
  | fuel + 1, .cons v t => do
    pure ((← processNodeJs fuel v) :: (← mapProcessListJs fuel t))

/-- The call `value.map(item => processListItem(item, pfx))`. -/
def mapListItemsJs : Nat → JsValue → String → Except String (List String)
  | 0, _, _ => .error "StackOverflow"
  | fuel + 1, v, pfx =>
    match v with
    | .varr xs => mapListItemListJs fuel xs pfx
    | _ => .error "TypeError"

/-- Mapping `processListItem` over the elements of an array. -/
def mapListItemListJs : Nat → JsList → String → Except String (List String)
  | 0, _, _ => .error "StackOverflow"
  | _ + 1, .nil, _ => pure []
  | fuel + 1, .cons v t, pfx => do
    pure ((← processListItemJs fuel v pfx) :: (← mapListItemListJs fuel t pfx))

/-- The call `value.map((item, index) => processListItem(item, (index + 1) + "."))`. -/
def mapOrderedItemsJs : Nat → JsValue → Nat → Except String (List String)
  | 0, _, _ => .error "StackOverflow"
  | fuel + 1, v, i =>
    match v with
    | .varr xs => mapOrderedItemListJs fuel xs i
    | _ => .error "TypeError"

/-- Mapping the indexed `processListItem` call over the elements of an
array. -/
def mapOrderedItemListJs : Nat → JsList → Nat → Except String (List String)
  | 0, _, _ => .error "StackOverflow"
  | _ + 1, .nil, _ => pure []
  | fuel + 1, .cons v t, i => do
    pure ((← processListItemJs fuel v (toString (i + 1) ++ "."))
      :: (← mapOrderedItemListJs fuel t (i + 1)))

/-- The call `value.map(item => processTaskItem(item))`. -/
def mapTaskItemsJs : Nat → JsValue → Except String (List String)
  | 0, _ => .error "StackOverflow"
  | fuel + 1, v =>
    match v with
    | .varr xs => mapTaskItemListJs fuel xs
    | _ => .error "TypeError"

/-- Mapping `processTaskItem` over the elements of an array. -/
def mapTaskItemListJs : Nat → JsList → Except String (List String)
  | 0, _ => .error "StackOverflow"
  | _ + 1, .nil => pure []
  | fuel + 1, .cons v t => do
    pure ((← processTaskItemJs fuel v) :: (← mapTaskItemListJs fuel t))

/-- The helper `processListItem` over dynamic values: reads
`item.content` (throwing when the item is `null`), maps `processNode`
over it, marks the first rendering with the prefix and indents the
later ones; the template literals stringify each rendering. -/
def processListItemJs : Nat → JsValue → String → Except String String
  | 0, _, _ => .error "StackOverflow"
  | fuel + 1, item, pfx => do
    let contentRaw ← getProp item "content"
    let itemContent := jsOr contentRaw (.varr .nil)
    let lines ← jsMapProcess fuel itemContent
    pure (joinSep "\n" (markFirstRest pfx (lines.map toStr)))

/-- The helper `processTaskItem` over dynamic values. -/
def processTaskItemJs : Nat → JsValue → Except String String
  | 0, _ => .error "StackOverflow"
  | fuel + 1, item => do
    let checked := jsOr (← attrReadJs item "checked") (.vbool false)
    let checkbox := if truthy checked then "[x]" else "[ ]"
    let contentRaw ← getProp item "content"
    let itemContent := jsOr contentRaw (.varr .nil)
    let text := jsJoin "" (← jsMapProcess fuel itemContent)
    pure ("- " ++ checkbox ++ " " ++ text)

end

/-- The entry point over dynamic values: the guard
`if (!content || !content.content) return ""`, then
`processNode(content).trim()`; `.trim` exists only on strings, and
`processNode` can return a non-string only through the `text` arm. -/
def convertJs (fuel : Nat) (content : JsValue) : Except String String :=
  if ¬ truthy content then pure ""
  else do
    let inner ← getProp content "content"
    if ¬ truthy inner then pure ""
    else do
      let result ← processNodeJs fuel content
      match result with
      | .vstr s => pure (jsTrim s)
      | _ => .error "TypeError"

/-- Split a character list at newline characters; the result always has
one more entry than the number of newlines, so every physical line
appears, including empty ones. -/
def splitLinesChars : List Char → List (List Char)
  | [] => [[]]
  | c :: t =>
    let r := splitLinesChars t
    if c = '\n' then [] :: r else (c :: r.headI) :: r.tail

/-- The physical lines of a string. -/
def splitLines (s : String) : List String :=
  (splitLinesChars s.data).map String.mk

/-- A string has no leading and no trailing JavaScript whitespace. -/
def isTrimmedB (s : String) : Bool :=
  (match s.data.head? with
   | some c => !isJsWhitespace c
   | none => true) &&
  (match s.data.getLast? with
   | some c => !isJsWhitespace c
   | none => true)

/-- The placeholder searched for by `getPage` after conversion:
`content.includes` and `content.replace` both use this literal. -/
def subpagesSentinel : String := "\x7b\x7bSUBPAGES\x7d\x7d"

/-- The Markdown list `getPage` builds from the fetched child pages:
one `- [title](page:id)` line per child. -/
def renderSubpagesList (subpages : List (String × String)) : String :=
  joinSep "\n" (subpages.map fun p => "- [" ++ p.1 ++ "](page:" ++ p.2 ++ ")")

/-- The post conversion substitution of `getPage`: when the converted
content is nonempty and contains the placeholder, the first occurrence
is replaced by a rendered subpages section, or by the empty string when
no child pages exist; otherwise the content is returned unchanged. The
children are given as (title, id) pairs. -/
def resolveSubpages (content : String) (subpages : List (String × String)) : String :=
  if content ≠ "" ∧ hasSub content subpagesSentinel then
    if subpages ≠ [] then
      replaceFirst content subpagesSentinel
        ("### Subpages\n" ++ renderSubpagesList subpages)
    else
      replaceFirst content subpagesSentinel ""
  else content

/-- The type tags that have their own arm in the dispatch switch; any
other tag falls through to the default arm. -/
def recognizedTypes : List String :=
  ["doc", "paragraph", "heading", "text", "codeBlock", "bulletList",
   "orderedList", "taskList", "taskItem", "listItem", "blockquote",
   "horizontalRule", "hardBreak", "image", "video", "youtube", "table",
   "tableRow", "tableCell", "tableHeader", "callout", "details",
   "detailsSummary", "detailsContent", "mathInline", "mathBlock",
   "mention", "attachment", "drawio", "excalidraw", "embed", "subpages"]

/-!
Encoding of well formed DocumentNode trees as JavaScript values, for the
robustness theorem: the dynamic evaluator run on the encoding of a well
formed tree never throws and agrees with the pure converter. An absent
optional attribute is encoded as a property explicitly set to
`undefined`, which is indistinguishable from an absent property for
every read the converter performs; the optional `content` array is
present exactly when `hasContent` is true.
-/

/-- Encode an optional string attribute. -/
def encOptStr : Option String → JsValue
  | some s => .vstr s
  | none => .vundefined

/-- Encode an optional numeric attribute. -/
def encOptNat : Option Nat → JsValue
  | some n => .vnum (Int.ofNat n)
  | none => .vundefined

/-- Encode an optional boolean attribute. -/
def encOptBool : Option Bool → JsValue
  | some b => .vbool b
  | none => .vundefined

/-- Encode the attrs record as an object. -/
def encodeAttrs (a : Attrs) : JsFields :=
  .fcons "textAlign" (encOptStr a.textAlign)
    (.fcons "level" (encOptNat a.level)
      (.fcons "language" (encOptStr a.language)
        (.fcons "checked" (encOptBool a.checked)
          (.fcons "src" (encOptStr a.src)
            (.fcons "alt" (encOptStr a.alt)
              (.fcons "caption" (encOptStr a.caption)
                (.fcons "latex" (encOptStr a.latex)
                  (.fcons "label" (encOptStr a.label)
                    (.fcons "id" (encOptStr a.id)
                      (.fcons "fileName" (encOptStr a.fileName)
                        (.fcons "href" (encOptStr a.href)
                          (.fcons "color" (encOptStr a.color)
                            (.fcons "type" (encOptStr a.type) .fnil)))))))))))))

/-- Encode one mark descriptor. -/
def encodeMark (m : Mark) : JsValue :=
  .vobj (.fcons "type" (.vstr m.type) (.fcons "attrs" (.vobj (encodeAttrs m.attrs)) .fnil))

/-- Encode a mark sequence. -/
def encodeMarks : List Mark → JsList
  | [] => .nil
  | m :: r => .cons (encodeMark m) (encodeMarks r)

mutual

/-- Encode a node as the JavaScript object the converter would receive. -/
def encode : Node → JsValue
  | .mk t a ms s hc cs =>
    .vobj (.fcons "type" (.vstr t)
      (.fcons "attrs" (.vobj (encodeAttrs a))
        (.fcons "marks" (.varr (encodeMarks ms))
          (.fcons "text" (.vstr s)
            (if hc then .fcons "content" (.varr (encodeNL cs)) .fnil else .fnil)))))

/-- Encode a child list as a JavaScript array. -/
def encodeNL : NodeList → JsList
  | .nil => .nil
  | .cons c rest => .cons (encode c) (encodeNL rest)

end

mutual

/-- Size measure used to bound the fuel of the dynamic evaluator. -/
def sizeN : Node → Nat
  | .mk _ _ _ _ _ cs => sizeNL cs + 3

/-- Size measure of a child list. -/
def sizeNL : NodeList → Nat
  | .nil => 0
  | .cons c rest => sizeN c + sizeNL rest + 1

end

/-- Whether a child list is empty. -/
def NodeList.isNil : NodeList → Bool
  | .nil => true
  | .cons _ _ => false

mutual

/-- Well formedness: a node whose content field is absent has no
children (the encoding drops the field, so nothing else could be
faithful). -/
def wfN : Node → Bool
  | .mk _ _ _ _ hc cs => (hc || NodeList.isNil cs) && wfNL cs

/-- Well formedness of every node of a child list. -/
def wfNL : NodeList → Bool
  | .nil => true
  | .cons c rest => wfN c && wfNL rest

end

/-- Encode the optional document root (an absent root is null). -/
def encodeOpt : Option Node → JsValue
  | none => .vnull
  | some r => encode r

/-- Well formedness of the optional root. -/
def wfOpt : Option Node → Bool
  | none => true
  | some r => wfN r

/-- Size of the optional root. -/
def sizeOpt : Option Node → Nat
  | none => 0
  | some r => sizeN r

/-! Helper lemmas about the converter and the string functions. -/

theorem processNodes_ofList (l : List Node) :
    processNodes (NodeList.ofList l) = l.map processNode := by
  induction l with
  | nil => rfl
  | cons c t ih => simp [NodeList.ofList, processNodes, ih]

theorem processItems_ofList (l : List Node) (pfx : String) :
    processItems (NodeList.ofList l) pfx = l.map (fun c => processListItem c pfx) := by
  induction l with
  | nil => rfl
  | cons c t ih => simp [NodeList.ofList, processItems, ih]

theorem processOrderedItems_ofList (l : List Node) : ∀ i : Nat,
    processOrderedItems (NodeList.ofList l) i =
      (List.enumFrom i l).map
        (fun p => processListItem p.2 (toString (p.1 + 1) ++ ".")) := by
  induction l with
  | nil => intro i; rfl
  | cons c t ih => intro i; simp [NodeList.ofList, processOrderedItems, List.enumFrom, ih]

theorem processTaskItems_ofList (l : List Node) :
    processTaskItems (NodeList.ofList l) = l.map processTaskItem := by
  induction l with
  | nil => rfl
  | cons c t ih => simp [NodeList.ofList, processTaskItems, ih]

theorem splitLinesChars_ne_nil (l : List Char) : splitLinesChars l ≠ [] := by
  induction l with
  | nil => simp [splitLinesChars]
  | cons c t ih =>
    simp only [splitLinesChars]
    split <;> simp

theorem splitLinesChars_append_nl (xs ys : List Char) :
    splitLinesChars (xs ++ '\n' :: ys) = splitLinesChars xs ++ splitLinesChars ys := by
  induction xs with
  | nil => simp [splitLinesChars]
  | cons c t ih =>
    by_cases hc : c = '\n'
    · subst hc
      simp [splitLinesChars, ih]
    · have h1 : splitLinesChars t ≠ [] := splitLinesChars_ne_nil t
      simp only [List.cons_append, splitLinesChars, List.append_eq]
      rw [if_neg hc, if_neg hc, ih]
      cases hst : splitLinesChars t with
      | nil => exact absurd hst h1
      | cons a as => simp [hst]

theorem splitLinesChars_no_nl (xs : List Char) (h : '\n' ∉ xs) :
    splitLinesChars xs = [xs] := by
  induction xs with
  | nil => rfl
  | cons c t ih =>
    rw [List.mem_cons] at h
    push_neg at h
    obtain ⟨hc, ht⟩ := h
    simp [splitLinesChars, ih ht, Ne.symm hc]

theorem splitLinesChars_joinSep (ss : List String) (hne : ss ≠ []) :
    splitLinesChars (joinSep "\n" ss).data =
      (ss.map (fun s => splitLinesChars s.data)).flatten := by
  induction ss with
  | nil => exact absurd rfl hne
  | cons s rest ih =>
    cases rest with
    | nil => simp [joinSep]
    | cons r rs =>
      have hdata : (joinSep "\n" (s :: r :: rs)).data
          = s.data ++ '\n' :: (joinSep "\n" (r :: rs)).data := by
        show (s ++ "\n" ++ joinSep "\n" (r :: rs)).data = _
        simp [String.data_append]
      rw [hdata, splitLinesChars_append_nl, ih (by simp)]
      simp

theorem flatten_map_singleton {α β : Type} (l : List α) (f : α → β) :
    (l.map (fun a => [f a])).flatten = l.map f := by
  induction l with
  | nil => rfl
  | cons a t ih => simp [ih]

theorem splitLines_joinSep_flat (ss : List String) (hne : ss ≠ [])
    (h : ∀ s ∈ ss, '\n' ∉ s.data) :
    splitLines (joinSep "\n" ss) = ss := by
  unfold splitLines
  rw [splitLinesChars_joinSep ss hne]
  have hmap : ss.map (fun s => splitLinesChars s.data) = ss.map (fun s => [s.data]) :=
    List.map_congr_left (fun s hs => splitLinesChars_no_nl s.data (h s hs))
  rw [hmap, flatten_map_singleton, List.map_map]
  have hid : String.mk ∘ String.data = id := funext fun s => rfl
  rw [hid, List.map_id]

theorem splitLines_joinSep_blocks (ss : List String) (hne : ss ≠ []) :
    splitLines (joinSep "\n" ss) = (ss.map splitLines).flatten := by
  unfold splitLines
  rw [splitLinesChars_joinSep ss hne]
  have hflat : ∀ (L : List (List (List Char))),
      List.map String.mk L.flatten = (L.map (List.map String.mk)).flatten := by
    intro L
    induction L with
    | nil => rfl
    | cons x xs ih => simp [ih]
  rw [hflat (ss.map (fun s => splitLinesChars s.data)), List.map_map]
  apply congrArg List.flatten
  apply List.map_congr_left
  intro s _
  rfl

theorem markLinesFrom_succ (pfx : String) : ∀ (ls : List String) (i : Nat),
    markLinesFrom pfx (i + 1) ls = ls.map (fun l => "  " ++ l) := by
  intro ls
  induction ls with
  | nil => intro i; rfl
  | cons x xs ih => intro i; simp [markLinesFrom, ih]

theorem markFirstRest_cons (pfx l : String) (ls : List String) :
    markFirstRest pfx (l :: ls) = (pfx ++ " " ++ l) :: ls.map (fun x => "  " ++ x) := by
  simp [markFirstRest, markLinesFrom, markLinesFrom_succ]

theorem joinSep_not_mem (sep : String) (c : Char) (hsep : c ∉ sep.data) :
    ∀ (ss : List String), (∀ s ∈ ss, c ∉ s.data) → c ∉ (joinSep sep ss).data := by
  intro ss
  induction ss with
  | nil => intro _ h; simp [joinSep] at h
  | cons s rest ih =>
    intro h
    cases rest with
    | nil => simpa [joinSep] using h s (by simp)
    | cons r rs =>
      show c ∉ (s ++ sep ++ joinSep sep (r :: rs)).data
      simp only [String.data_append, List.mem_append, not_or]
      exact ⟨⟨h s (by simp), hsep⟩, ih (fun x hx => h x (List.mem_cons_of_mem _ hx))⟩

theorem dropWhile_head?_false (p : Char → Bool) :
    ∀ (l : List Char) (c : Char), (l.dropWhile p).head? = some c → p c = false := by
  intro l
  induction l with
  | nil => intro c h; simp [List.dropWhile] at h
  | cons a t ih =>
    intro c h
    by_cases hp : p a
    · simp only [List.dropWhile, hp] at h
      exact ih c h
    · have hp2 : p a = false := by simpa using hp
      simp only [List.dropWhile, hp2] at h
      simp at h
      rw [← h]
      exact hp2

theorem dropWhile_getLast? (p : Char → Bool) :
    ∀ (l : List Char), l.dropWhile p ≠ [] → (l.dropWhile p).getLast? = l.getLast? := by
  intro l
  induction l with
  | nil => intro h; simp [List.dropWhile] at h
  | cons a t ih =>
    intro h
    by_cases hp : p a
    · simp only [List.dropWhile, hp] at h ⊢
      rw [ih h]
      cases t with
      | nil => simp [List.dropWhile] at h
      | cons b t2 => exact List.getLast?_cons_cons.symm
    · have hp2 : p a = false := by simpa using hp
      simp only [List.dropWhile, hp2]

theorem isPrefixOf_append_self (l m : List Char) : l.isPrefixOf (l ++ m) = true := by
  induction l with
  | nil => simp [List.isPrefixOf]
  | cons c t ih => simp [List.isPrefixOf, ih]

theorem isTrimmedB_jsTrim (s : String) : isTrimmedB (jsTrim s) = true := by
  unfold isTrimmedB jsTrim jsTrimChars
  have hY := dropWhile_head?_false isJsWhitespace s.data
  have hZ := dropWhile_head?_false isJsWhitespace (s.data.dropWhile isJsWhitespace).reverse
  rw [Bool.and_eq_true]
  constructor
  · rw [List.head?_reverse]
    by_cases hz : (s.data.dropWhile isJsWhitespace).reverse.dropWhile isJsWhitespace = []
    · rw [hz]
      simp
    · rw [dropWhile_getLast? isJsWhitespace _ hz, List.getLast?_reverse]
      cases hy : (s.data.dropWhile isJsWhitespace).head? with
      | none => simp [hy]
      | some c => simp [hy, hY c hy]
  · rw [List.getLast?_reverse]
    cases hz : ((s.data.dropWhile isJsWhitespace).reverse.dropWhile isJsWhitespace).head? with
    | none => simp [hz]
    | some c => simp [hz, hZ c hz]

theorem digitChar_ne_newline (k : Nat) : Nat.digitChar k ≠ '\n' := by
  rcases Nat.lt_or_ge k 16 with h | h
  · interval_cases k <;> decide
  · unfold Nat.digitChar
    rw [if_neg (by omega : ¬ k = 0), if_neg (by omega : ¬ k = 1), if_neg (by omega : ¬ k = 2),
        if_neg (by omega : ¬ k = 3), if_neg (by omega : ¬ k = 4), if_neg (by omega : ¬ k = 5),
        if_neg (by omega : ¬ k = 6), if_neg (by omega : ¬ k = 7), if_neg (by omega : ¬ k = 8),
        if_neg (by omega : ¬ k = 9), if_neg (by omega : ¬ k = 10), if_neg (by omega : ¬ k = 11),
        if_neg (by omega : ¬ k = 12), if_neg (by omega : ¬ k = 13), if_neg (by omega : ¬ k = 14),
        if_neg (by omega : ¬ k = 15)]
    decide

theorem toDigitsCore_mem (b : Nat) : ∀ (f n : Nat) (acc : List Char) (c : Char),
    c ∈ Nat.toDigitsCore b f n acc → c ∈ acc ∨ ∃ k, c = Nat.digitChar k := by
  intro f
  induction f with
  | zero =>
    intro n acc c h
    simp only [Nat.toDigitsCore] at h
    exact Or.inl h
  | succ f ih =>
    intro n acc c h
    simp only [Nat.toDigitsCore] at h
    by_cases hb : n / b = 0
    · rw [if_pos hb] at h
      rcases List.mem_cons.mp h with h | h
      · exact Or.inr ⟨n % b, h⟩
      · exact Or.inl h
    · rw [if_neg hb] at h
      rcases ih (n / b) (Nat.digitChar (n % b) :: acc) c h with h | h
      · rcases List.mem_cons.mp h with h | h
        · exact Or.inr ⟨n % b, h⟩
        · exact Or.inl h
      · exact Or.inr h

theorem newline_not_mem_toString_nat (n : Nat) : '\n' ∉ (toString n).data := by
  intro h
  have h2 : ('\n' : Char) ∈ Nat.toDigitsCore 10 (n + 1) n [] := h
  rcases toDigitsCore_mem 10 (n + 1) n [] '\n' h2 with h3 | ⟨k, hk⟩
  · simp at h3
  · exact digitChar_ne_newline k hk.symm

theorem snd_mem_enumFrom {α : Type} : ∀ (l : List α) (i : Nat) (p : Nat × α),
    p ∈ List.enumFrom i l → p.2 ∈ l := by
  intro l
  induction l with
  | nil => intro i p h; simp [List.enumFrom] at h
  | cons a t ih =>
    intro i p h
    simp only [List.enumFrom, List.mem_cons] at h
    rcases h with h | h
    · subst h; simp
    · exact List.mem_cons_of_mem _ (ih (i + 1) p h)

theorem item_lines (pfx : String) (hpfx : '\n' ∉ pfx.data) (cs : List Node)
    (hcs : cs ≠ []) (hf : ∀ c ∈ cs, '\n' ∉ (processNode c).data) :
    splitLines (joinSep "\n" (markFirstRest pfx (cs.map processNode)))
      = (pfx ++ " " ++ processNode cs.headI) :: cs.tail.map (fun c => "  " ++ processNode c) := by
  cases cs with
  | nil => exact absurd rfl hcs
  | cons c t =>
    rw [List.map_cons, markFirstRest_cons]
    rw [splitLines_joinSep_flat]
    · simp [List.map_map]
    · simp
    · intro s hs
      rcases List.mem_cons.mp hs with h | h
      · subst h
        simp only [String.data_append, List.mem_append, not_or]
        exact ⟨⟨hpfx, by decide⟩, hf c (by simp)⟩
      · obtain ⟨x, hx, rfl⟩ := List.mem_map.mp h
        obtain ⟨nd, hnd, rfl⟩ := List.mem_map.mp hx
        simp only [String.data_append, List.mem_append, not_or]
        exact ⟨by decide, hf nd (List.mem_cons_of_mem _ hnd)⟩

theorem bulletItems_map (l : List (List Node)) :
    processItems (NodeList.ofList (l.map (fun cs => mkNode "listItem" cs))) "-"
      = l.map (fun cs => joinSep "\n" (markFirstRest "-" (cs.map processNode))) := by
  induction l with
  | nil => rfl
  | cons cs rest ih =>
    simp only [List.map_cons, NodeList.ofList, processItems, ih]
    congr 1
    show joinSep "\n" (markFirstRest "-" (processNodes (NodeList.ofList cs))) = _
    rw [processNodes_ofList]

theorem orderedItems_map (l : List (List Node)) : ∀ i : Nat,
    processOrderedItems (NodeList.ofList (l.map (fun cs => mkNode "listItem" cs))) i
      = (List.enumFrom i l).map (fun p =>
          joinSep "\n" (markFirstRest (toString (p.1 + 1) ++ ".") (p.2.map processNode))) := by
  induction l with
  | nil => intro i; rfl
  | cons cs rest ih =>
    intro i
    simp only [List.map_cons, NodeList.ofList, processOrderedItems, List.enumFrom, ih]
    congr 1
    show joinSep "\n" (markFirstRest (toString (i + 1) ++ ".") (processNodes (NodeList.ofList cs))) = _
    rw [processNodes_ofList]

theorem resolveSubpages_of_not_contains (content : String)
    (h : hasSub content subpagesSentinel = false) (subs : List (String × String)) :
    resolveSubpages content subs = content := by
  unfold resolveSubpages
  rw [if_neg]
  rintro ⟨-, h2⟩
  rw [h] at h2
  exact Bool.false_ne_true h2

/-- C1: the subpages arm of the converter emits the fixed string
"ðŸ“‘ [Subpages List]" (the code points the source file contains), which
differs from the sentinel "\x7b\x7bSUBPAGES\x7d\x7d" that the caller
getPage searches for and replaces; consequently the converted output of
a document holding a subpages node never contains that sentinel and the
post conversion substitution of getPage leaves it unchanged for every
fetched child page list. -/
theorem c1_subpages_sentinel_mismatch :
    convertProseMirrorToMarkdown (some (mkNode "doc" [mkNode "subpages" []]))
      = "ðŸ“‘ [Subpages List]"
    ∧ "ðŸ“‘ [Subpages List]" ≠ subpagesSentinel
    ∧ hasSub (convertProseMirrorToMarkdown (some (mkNode "doc" [mkNode "subpages" []])))
        subpagesSentinel = false
    ∧ (∀ subpages : List (String × String),
        resolveSubpages
            (convertProseMirrorToMarkdown (some (mkNode "doc" [mkNode "subpages" []])))
            subpages
          = convertProseMirrorToMarkdown (some (mkNode "doc" [mkNode "subpages" []])))
    ∧ resolveSubpages subpagesSentinel [("Child", "c1")]
        = "### Subpages\n- [Child](page:c1)"
    ∧ resolveSubpages subpagesSentinel [] = "" := by
  refine ⟨rfl, by decide, rfl,
    fun subs => resolveSubpages_of_not_contains
      (convertProseMirrorToMarkdown (some (mkNode "doc" [mkNode "subpages" []]))) rfl subs,
    by decide, by decide⟩

/-- C2: marks are applied as a left fold over the mark sequence, so the
first mark wraps the raw text first (innermost) and later marks wrap the
already wrapped string; in particular a text leaf with marks
[bold, italic] renders to "*" ++ "**" ++ t ++ "**" ++ "*". -/
theorem c2_marks_left_fold :
    (∀ t : String, processNode (mkTextM t [mkMark "bold", mkMark "italic"])
        = "*" ++ "**" ++ t ++ "**" ++ "*")
    ∧ (∀ (t : String) (m : Mark) (ms : List Mark),
        applyMarks t (m :: ms) = applyMarks (applyMark t m) ms) := by
  constructor
  · intro t
    show applyMarks t [mkMark "bold", mkMark "italic"] = _
    simp only [applyMarks, applyMark, mkMark, List.foldl_cons, List.foldl_nil,
      String.append_assoc]
  · intro t m ms
    rfl

/-- C3 counterexample: the claim promises totality on arbitrary
malformed input, but running the converter under JavaScript semantics on
the object whose content array holds a null entry throws a TypeError
when the null child has its type read. -/
theorem c3_counterexample_null_child :
    convertJs 10 (.vobj (.fcons "content" (.varr (.cons .vnull .nil)) .fnil))
      = .error "TypeError" := rfl

/-- C4 counterexample: a blockquote holding one empty code block renders
to "> ```\n\n```"; only its first line carries the "> " prefix, the two
lines inside the multi line child do not. -/
theorem c4_counterexample_multiline_child :
    processNode (mkNode "blockquote" [mkNode "codeBlock" []]) = "> ```\n\n```"
    ∧ (splitLines (processNode (mkNode "blockquote" [mkNode "codeBlock" []]))).all
        (fun l => startsWithStr "> " l) = false :=
  ⟨rfl, rfl⟩

/-- C4 amended: the blockquote arm prefixes each rendered child (not
each physical line) with "> " and joins the children with newlines;
therefore, when every child renders to a single line, every line of the
blockquote output carries the "> " prefix. -/
theorem c4_amended_quote_per_child (cs : List Node) (hne : cs ≠ [])
    (hflat : ∀ c ∈ cs, '\n' ∉ (processNode c).data) :
    processNode (mkNode "blockquote" cs)
      = joinSep "\n" ((cs.map processNode).map (fun s => "> " ++ s))
    ∧ ∀ line ∈ splitLines (processNode (mkNode "blockquote" cs)),
        startsWithStr "> " line = true := by
  have h1 : processNode (mkNode "blockquote" cs)
      = joinSep "\n" ((cs.map processNode).map (fun s => "> " ++ s)) := by
    show joinSep "\n" ((processNodes (NodeList.ofList cs)).map (fun s => "> " ++ s)) = _
    rw [processNodes_ofList]
  refine ⟨h1, ?_⟩
  have hne2 : (cs.map processNode).map (fun s => "> " ++ s) ≠ [] := by
    simpa using hne
  have hflat2 : ∀ s ∈ (cs.map processNode).map (fun s => "> " ++ s), '\n' ∉ s.data := by
    intro s hs
    obtain ⟨x, hx, rfl⟩ := List.mem_map.mp hs
    obtain ⟨c, hc, rfl⟩ := List.mem_map.mp hx
    simp only [String.data_append, List.mem_append, not_or]
    exact ⟨by decide, hflat c hc⟩
  rw [h1, splitLines_joinSep_flat _ hne2 hflat2]
  intro line hline
  obtain ⟨x, hx, rfl⟩ := List.mem_map.mp hline
  unfold startsWithStr
  rw [String.data_append]
  exact isPrefixOf_append_self _ _

/-- C4 witness: at the one child blockquote with text "q" every line of
the output starts with "> ". -/
theorem c4_witness :
    (splitLines (processNode (mkNode "blockquote" [mkText "q"]))).all
      (fun l => startsWithStr "> " l) = true := by
  have h := (c4_amended_quote_per_child [mkText "q"] (by decide) (by decide)).2
  simp only [List.all_eq_true]
  intro l hl
  exact h l hl

/-- C5 counterexample: a bullet list whose single item holds one empty
code block renders to "- ```\n\n```"; the lines after the first are not
indented by two spaces, because the indentation is applied per rendered
child, not per physical line. -/
theorem c5_counterexample_multiline_item :
    processNode (mkNode "bulletList" [mkNode "listItem" [mkNode "codeBlock" []]])
      = "- ```\n\n```"
    ∧ ((splitLines (processNode
          (mkNode "bulletList" [mkNode "listItem" [mkNode "codeBlock" []]]))).drop 1).all
        (fun l => startsWithStr "  " l) = false :=
  ⟨rfl, rfl⟩

/-- C5 amended: bullet items carry the "-" marker and ordered items the
1-based "i." marker on the first rendered child, and each later rendered
child of the same item is indented by two spaces; when every child of
every item renders to a single line this describes the physical lines of
the output exactly, and the two line bullet example renders to
"- A\n- B". Lines inside one multi line child receive no indentation. -/
theorem c5_amended_list_markers (itemsChildren : List (List Node))
    (hne : itemsChildren ≠ [])
    (hitems : ∀ cs ∈ itemsChildren, cs ≠ [])
    (hflat : ∀ cs ∈ itemsChildren, ∀ c ∈ cs, '\n' ∉ (processNode c).data) :
    splitLines (processNode (mkNode "bulletList"
        (itemsChildren.map (fun cs => mkNode "listItem" cs))))
      = (itemsChildren.map (fun cs =>
          ("- " ++ processNode cs.headI)
            :: cs.tail.map (fun c => "  " ++ processNode c))).flatten
    ∧ splitLines (processNode (mkNode "orderedList"
        (itemsChildren.map (fun cs => mkNode "listItem" cs))))
      = ((List.enumFrom 0 itemsChildren).map (fun p =>
          (toString (p.1 + 1) ++ "." ++ " " ++ processNode p.2.headI)
            :: p.2.tail.map (fun c => "  " ++ processNode c))).flatten
    ∧ processNode (mkNode "bulletList"
        [mkNode "listItem" [mkText "A"], mkNode "listItem" [mkText "B"]]) = "- A\n- B" := by
  refine ⟨?_, ?_, rfl⟩
  · show splitLines (joinSep "\n" (processItems
      (NodeList.ofList (itemsChildren.map fun cs => mkNode "listItem" cs)) "-")) = _
    rw [bulletItems_map]
    rw [splitLines_joinSep_blocks _ (by simpa using hne), List.map_map]
    congr 1
    apply List.map_congr_left
    intro cs hcs
    exact item_lines "-" (by decide) cs (hitems cs hcs) (hflat cs hcs)
  · show splitLines (joinSep "\n" (processOrderedItems
      (NodeList.ofList (itemsChildren.map fun cs => mkNode "listItem" cs)) 0)) = _
    rw [orderedItems_map]
    have hne2 : (List.enumFrom 0 itemsChildren).map (fun p =>
        joinSep "\n" (markFirstRest (toString (p.1 + 1) ++ ".") (p.2.map processNode))) ≠ [] := by
      cases itemsChildren with
      | nil => exact absurd rfl hne
      | cons a t => simp [List.enumFrom]
    rw [splitLines_joinSep_blocks _ hne2, List.map_map]
    congr 1
    apply List.map_congr_left
    intro p hp
    have hmem : p.2 ∈ itemsChildren := snd_mem_enumFrom itemsChildren 0 p hp
    have hpfx : '\n' ∉ (toString (p.1 + 1) ++ ".").data := by
      simp only [String.data_append, List.mem_append, not_or]
      exact ⟨newline_not_mem_toString_nat (p.1 + 1), by decide⟩
    exact item_lines (toString (p.1 + 1) ++ ".") hpfx p.2 (hitems p.2 hmem) (hflat p.2 hmem)

/-- C5 witness: at the concrete two item list with single line items the
physical lines of the output are the two marked lines. -/
theorem c5_witness :
    splitLines (processNode (mkNode "bulletList"
        [mkNode "listItem" [mkText "A"], mkNode "listItem" [mkText "B"]]))
      = ["- A", "- B"] :=
  ((c5_amended_list_markers [[mkText "A"], [mkText "B"]]
      (by decide) (by decide) (by decide)).1).trans rfl

/-- C6: a node whose type tag is not one of the recognized tags is
rendered by the default arm, which concatenates the rendered children
with no separator; in particular an unknown node wrapping the text leaf
"x" renders to "x". -/
theorem c6_unknown_type_fallback :
    (∀ t : String, t ∉ recognizedTypes →
      ∀ (a : Attrs) (ms : List Mark) (s : String) (hc : Bool) (cs : NodeList),
        processNode (.mk t a ms s hc cs) = joinSep "" (processNodes cs))
    ∧ processNode (mkNode "custom" [mkText "x"]) = "x" := by
  constructor
  · intro t ht a ms s hc cs
    simp only [processNode]
    split <;> first
      | rfl
      | (exfalso; simp [recognizedTypes] at ht)
  · rfl

/-- C6 witness: "custom" is not a recognized tag and the fallback
concatenation applies to it. -/
theorem c6_witness :
    ("custom" ∉ recognizedTypes)
    ∧ processNode (.mk "custom" {} [] "" true (NodeList.ofList [mkText "x"]))
        = joinSep "" (processNodes (NodeList.ofList [mkText "x"])) :=
  ⟨by decide, c6_unknown_type_fallback.1 "custom" (by decide) {} [] "" true
      (NodeList.ofList [mkText "x"])⟩

/-- C7: the entry point returns the empty string when the root is absent
or its content field is absent; otherwise it returns the trimmed
rendering of the root, and that result carries no leading or trailing
whitespace. -/
theorem c7_convert_trimmed :
    convertProseMirrorToMarkdown none = ""
    ∧ (∀ (t : String) (a : Attrs) (ms : List Mark) (s : String) (cs : NodeList),
        convertProseMirrorToMarkdown (some (.mk t a ms s false cs)) = "")
    ∧ (∀ (t : String) (a : Attrs) (ms : List Mark) (s : String) (cs : NodeList),
        convertProseMirrorToMarkdown (some (.mk t a ms s true cs))
          = jsTrim (processNode (.mk t a ms s true cs)))
    ∧ (∀ r : Node, r.hasContent = true →
        isTrimmedB (convertProseMirrorToMarkdown (some r)) = true) := by
  refine ⟨rfl, fun t a ms s cs => rfl, fun t a ms s cs => rfl, ?_⟩
  intro r hr
  cases r with
  | mk t a ms s hc cs =>
    have hc2 : hc = true := hr
    subst hc2
    show isTrimmedB (jsTrim (processNode (.mk t a ms s true cs))) = true
    exact isTrimmedB_jsTrim _

/-- C7 witness: the document root around the text " x " has a present
content field and converts to a trimmed result. -/
theorem c7_witness :
    Node.hasContent (mkNode "doc" [mkText " x "]) = true
    ∧ isTrimmedB (convertProseMirrorToMarkdown (some (mkNode "doc" [mkText " x "]))) = true :=
  ⟨rfl, c7_convert_trimmed.2.2.2 (mkNode "doc" [mkText " x "]) rfl⟩

/-- C8 counterexample: a task item whose content holds a hard break
renders to "- [ ] \n", which contains a newline, so the rendered item is
not always newline free. -/
theorem c8_counterexample_hardbreak :
    processNode (mkNode "taskList" [mkNode "taskItem" [mkNode "hardBreak" []]])
      = "- [ ] \n"
    ∧ '\n' ∈ (processNode (mkNode "taskList"
        [mkNode "taskItem" [mkNode "hardBreak" []]])).data :=
  ⟨rfl, by decide⟩

/-- C8 amended: a task list item is prefixed with "- [x]" when
attrs.checked is true and "- [ ]" otherwise (absent checked defaults to
false), and its children are joined with the empty separator, so the
item stays on one line whenever every child rendering is newline free;
a child whose own rendering contains a newline (such as a hard break)
keeps it. The checked example renders to "- [x] Done". -/
theorem c8_taskitem_checkbox :
    (∀ (a : Attrs) (ms : List Mark) (s : String) (hc : Bool) (cs : NodeList),
      processTaskItem (.mk "taskItem" a ms s hc cs)
        = "- " ++ (if a.checked.getD false then "[x]" else "[ ]") ++ " "
            ++ joinSep "" (processNodes cs))
    ∧ (∀ (a : Attrs) (cs : List Node), (∀ c ∈ cs, '\n' ∉ (processNode c).data) →
        '\n' ∉ (processTaskItem (mkNodeA "taskItem" a cs)).data)
    ∧ processNode (mkNode "taskList"
        [mkNodeA "taskItem" { checked := some true } [mkText "Done"]]) = "- [x] Done"
    ∧ processNode (mkNode "taskList" [mkNode "taskItem" [mkText "Todo"]]) = "- [ ] Todo" := by
  refine ⟨fun a ms s hc cs => rfl, ?_, rfl, rfl⟩
  intro a cs h
  show '\n' ∉ ("- " ++ (if a.checked.getD false then "[x]" else "[ ]") ++ " "
      ++ joinSep "" (processNodes (NodeList.ofList cs))).data
  simp only [String.data_append, List.mem_append, not_or]
  refine ⟨⟨⟨by decide, ?_⟩, by decide⟩, ?_⟩
  · cases a.checked.getD false <;> decide
  · rw [processNodes_ofList]
    refine joinSep_not_mem "" '\n' (by decide) _ ?_
    intro s hs
    obtain ⟨c, hc, rfl⟩ := List.mem_map.mp hs
    exact h c hc

/-- C8 witness: at the unchecked single text child item the rendering is
newline free. -/
theorem c8_witness :
    '\n' ∉ (processTaskItem (mkNodeA "taskItem" {} [mkText "Done"])).data :=
  c8_taskitem_checkbox.2.1 {} [mkText "Done"] (by decide)

/-- C9: conversion is deterministic; structurally identical inputs give
byte identical outputs. -/
theorem c9_deterministic (x y : Option Node) (h : x = y) :
    convertProseMirrorToMarkdown x = convertProseMirrorToMarkdown y := by
  rw [h]

/-- C9 witness: determinism applied at a concrete document. -/
theorem c9_witness :
    convertProseMirrorToMarkdown (some (mkNode "doc" [mkText "a"]))
      = convertProseMirrorToMarkdown (some (mkNode "doc" [mkText "a"])) :=
  c9_deterministic (some (mkNode "doc" [mkText "a"])) (some (mkNode "doc" [mkText "a"])) rfl

/-- C10: a taskItem rendered through processTaskItem (as a child of a
taskList) joins its children with the empty string, while the taskItem
arm of processNode joins them with a newline; both carry the same
checkbox prefix, and on an item with the two text children "a" and "b"
the two renderings differ. -/
theorem c10_taskitem_two_rules :
    (∀ (a : Attrs) (ms : List Mark) (s : String) (hc : Bool) (cs : NodeList),
      processTaskItem (.mk "taskItem" a ms s hc cs)
        = "- " ++ (if a.checked.getD false then "[x]" else "[ ]") ++ " "
            ++ joinSep "" (processNodes cs)
      ∧ processNode (.mk "taskItem" a ms s hc cs)
        = "- " ++ (if a.checked.getD false then "[x]" else "[ ]") ++ " "
            ++ joinSep "\n" (processNodes cs))
    ∧ processNode (mkNode "taskList" [mkNode "taskItem" [mkText "a", mkText "b"]])
        = "- [ ] ab"
    ∧ processNode (mkNode "taskItem" [mkText "a", mkText "b"]) = "- [ ] a\nb"
    ∧ processTaskItem (mkNode "taskItem" [mkText "a", mkText "b"])
        ≠ processNode (mkNode "taskItem" [mkText "a", mkText "b"]) :=
  ⟨fun a ms s hc cs => ⟨rfl, rfl⟩, rfl, rfl, by decide⟩

theorem except_bind_ok {α β : Type} (a : α) (f : α → Except String β) :
    (Except.ok a >>= f : Except String β) = f a := rfl

theorem toStr_vstr (s : String) : toStr (.vstr s) = s := rfl

theorem encodeJs_content (t : String) (a : Attrs) (ms : List Mark) (s : String)
    (hc : Bool) (cs : NodeList) :
    getProp (encode (.mk t a ms s hc cs)) "content"
      = .ok (if hc then .varr (encodeNL cs) else .vundefined) := by
  cases hc <;> rfl

theorem attrJs_checked (t : String) (a : Attrs) (ms : List Mark) (s : String)
    (hc : Bool) (cs : NodeList) :
    attrReadJs (encode (.mk t a ms s hc cs)) "checked" = .ok (encOptBool a.checked) := by
  cases hc <;> rfl

theorem jsOr_content (hc : Bool) (cs : NodeList) (h : hc = false → cs = .nil) :
    jsOr (if hc then .varr (encodeNL cs) else .vundefined) (.varr .nil)
      = .varr (encodeNL cs) := by
  cases hc with
  | false => rw [h rfl]; rfl
  | true => rfl

theorem jsJoin_vstr (sep : String) (ss : List String) :
    jsJoin sep (ss.map JsValue.vstr) = joinSep sep ss := by
  unfold jsJoin
  congr 1
  induction ss with
  | nil => rfl
  | cons a tl ih => simp [ih, toStr_vstr]

theorem map_toStr_vstr (ss : List String) : (ss.map JsValue.vstr).map toStr = ss := by
  induction ss with
  | nil => rfl
  | cons a tl ih => simp [ih, toStr_vstr]

theorem truthy_checked (o : Option Bool) :
    truthy (jsOr (encOptBool o) (.vbool false)) = o.getD false := by
  cases o with
  | none => rfl
  | some b => cases b <;> rfl

theorem sizeN_ge (n : Node) : 3 ≤ sizeN n := by
  cases n with
  | mk t a ms s hc cs => simp [sizeN]

theorem wfN_destruct (t : String) (a : Attrs) (ms : List Mark) (s : String)
    (hc : Bool) (cs : NodeList) (h : wfN (.mk t a ms s hc cs) = true) :
    (hc = false → cs = .nil) ∧ wfNL cs = true := by
  simp only [wfN, Bool.and_eq_true, Bool.or_eq_true] at h
  refine ⟨?_, h.2⟩
  intro hfalse
  rcases h.1 with h1 | h1
  · rw [hfalse] at h1
    exact absurd h1 (by decide)
  · cases cs with
    | nil => rfl
    | cons c rest => simp [NodeList.isNil] at h1

theorem wfNL_destruct (c : Node) (rest : NodeList) (h : wfNL (.cons c rest) = true) :
    wfN c = true ∧ wfNL rest = true := by
  simpa [wfNL, Bool.and_eq_true] using h


theorem encodeJs_type (t : String) (a : Attrs) (ms : List Mark) (s : String)
    (hc : Bool) (cs : NodeList) :
    getProp (encode (.mk t a ms s hc cs)) "type" = .ok (.vstr t) := by
  cases hc <;> rfl


theorem jsOr_vstr_empty (s : String) : jsOr (.vstr s) (.vstr "") = .vstr s := by
  by_cases h : s = "" <;> simp [jsOr, truthy, h]

theorem map_prefix_vstr (pre : String) (ss : List String) :
    (ss.map JsValue.vstr).map (fun v => pre ++ toStr v) = ss.map (fun x => pre ++ x) := by
  induction ss with
  | nil => rfl
  | cons a tl ih => simp [ih, toStr_vstr]

theorem jsToUpper_vstr (s : String) : jsToUpperCall (.vstr s) = .ok (upperStr s) := rfl

theorem truthy_varr (l : JsList) : truthy (.varr l) = true := rfl

theorem jsIterate_varr (l : JsList) : jsIterate (.varr l) = .ok l := rfl

theorem attrJs_textAlign (t : String) (a : Attrs) (ms : List Mark) (s : String)
    (hc : Bool) (cs : NodeList) :
    attrReadJs (encode (.mk t a ms s hc cs)) "textAlign" = .ok (encOptStr a.textAlign) := by
  cases hc <;> rfl

theorem attrJs_level (t : String) (a : Attrs) (ms : List Mark) (s : String)
    (hc : Bool) (cs : NodeList) :
    attrReadJs (encode (.mk t a ms s hc cs)) "level" = .ok (encOptNat a.level) := by
  cases hc <;> rfl

theorem attrJs_language (t : String) (a : Attrs) (ms : List Mark) (s : String)
    (hc : Bool) (cs : NodeList) :
    attrReadJs (encode (.mk t a ms s hc cs)) "language" = .ok (encOptStr a.language) := by
  cases hc <;> rfl

theorem attrJs_src (t : String) (a : Attrs) (ms : List Mark) (s : String)
    (hc : Bool) (cs : NodeList) :
    attrReadJs (encode (.mk t a ms s hc cs)) "src" = .ok (encOptStr a.src) := by
  cases hc <;> rfl

theorem attrJs_alt (t : String) (a : Attrs) (ms : List Mark) (s : String)
    (hc : Bool) (cs : NodeList) :
    attrReadJs (encode (.mk t a ms s hc cs)) "alt" = .ok (encOptStr a.alt) := by
  cases hc <;> rfl

theorem attrJs_caption (t : String) (a : Attrs) (ms : List Mark) (s : String)
    (hc : Bool) (cs : NodeList) :
    attrReadJs (encode (.mk t a ms s hc cs)) "caption" = .ok (encOptStr a.caption) := by
  cases hc <;> rfl

theorem attrJs_latex (t : String) (a : Attrs) (ms : List Mark) (s : String)
    (hc : Bool) (cs : NodeList) :
    attrReadJs (encode (.mk t a ms s hc cs)) "latex" = .ok (encOptStr a.latex) := by
  cases hc <;> rfl

theorem attrJs_label (t : String) (a : Attrs) (ms : List Mark) (s : String)
    (hc : Bool) (cs : NodeList) :
    attrReadJs (encode (.mk t a ms s hc cs)) "label" = .ok (encOptStr a.label) := by
  cases hc <;> rfl

theorem attrJs_id (t : String) (a : Attrs) (ms : List Mark) (s : String)
    (hc : Bool) (cs : NodeList) :
    attrReadJs (encode (.mk t a ms s hc cs)) "id" = .ok (encOptStr a.id) := by
  cases hc <;> rfl

theorem attrJs_fileName (t : String) (a : Attrs) (ms : List Mark) (s : String)
    (hc : Bool) (cs : NodeList) :
    attrReadJs (encode (.mk t a ms s hc cs)) "fileName" = .ok (encOptStr a.fileName) := by
  cases hc <;> rfl

theorem attrJs_type (t : String) (a : Attrs) (ms : List Mark) (s : String)
    (hc : Bool) (cs : NodeList) :
    attrReadJs (encode (.mk t a ms s hc cs)) "type" = .ok (encOptStr a.type) := by
  cases hc <;> rfl

theorem jsOr_encOptStr (o : Option String) (d : String) :
    jsOr (encOptStr o) (.vstr d) = .vstr (jsOrStr o d) := by
  cases o with
  | none => rfl
  | some s =>
    by_cases hs : s = "" <;> simp [encOptStr, jsOr, truthy, jsOrStr, hs]

theorem jsOr_encOptNat_one (o : Option Nat) :
    jsOr (encOptNat o) (.vnum 1) = .vnum (Int.ofNat (jsOrNat o 1)) := by
  cases o with
  | none => rfl
  | some n =>
    by_cases hn : n = 0 <;>
      simp [encOptNat, jsOr, truthy, jsOrNat, hn, Int.ofNat_eq_zero]

theorem jsRepeat_ofNat (s : String) (n : Nat) :
    jsRepeat s (.vnum (Int.ofNat n)) = .ok (strRepeat s n) := by
  simp only [jsRepeat, toNum]
  split
  · rename_i h
    exact absurd h (Int.not_lt.mpr (Int.ofNat_nonneg n))
  · simp

theorem encodeJs_text (t : String) (a : Attrs) (ms : List Mark) (s : String)
    (hc : Bool) (cs : NodeList) :
    getProp (encode (.mk t a ms s hc cs)) "text" = .ok (.vstr s) := by
  cases hc <;> rfl

theorem encodeJs_marks (t : String) (a : Attrs) (ms : List Mark) (s : String)
    (hc : Bool) (cs : NodeList) :
    getProp (encode (.mk t a ms s hc cs)) "marks" = .ok (.varr (encodeMarks ms)) := by
  cases hc <;> rfl

theorem markJs_type (m : Mark) : getProp (encodeMark m) "type" = .ok (.vstr m.type) := rfl

theorem markJs_href (m : Mark) : attrReadJs (encodeMark m) "href" = .ok (encOptStr m.attrs.href) := rfl

theorem markJs_color (m : Mark) : attrReadJs (encodeMark m) "color" = .ok (encOptStr m.attrs.color) := rfl

theorem applyMarksJs_encode (ms : List Mark) : ∀ x : String,
    applyMarksJs (.vstr x) (encodeMarks ms) = .ok (.vstr (applyMarks x ms)) := by
  induction ms with
  | nil => intro x; rfl
  | cons m rest ih =>
    intro x
    simp only [applyMarksJs, encodeMarks, markJs_type, except_bind_ok]
    have hpure : applyMarks x (m :: rest) = applyMarks (applyMark x m) rest := rfl
    rw [hpure]
    split
    all_goals first
      | (simp_all [applyMark, ih, markJs_href, markJs_color, jsOr_encOptStr, toStr_vstr,
           except_bind_ok]
         done)
      | (cases hcol : m.attrs.color with
         | none =>
           simp_all [applyMark, ih, markJs_color, toStr_vstr, encOptStr, truthy,
             except_bind_ok]
         | some c =>
           by_cases hcol2 : c = "" <;>
             simp_all [applyMark, ih, markJs_color, toStr_vstr, encOptStr, truthy,
               except_bind_ok])

set_option maxHeartbeats 1600000 in
/-- Agreement between the dynamically typed evaluation of the converter
and the pure embedding, on every encoded well-formed tree, for every
fuel bound at least the tree size: one conjunct per function of the
mutual block. -/
theorem jsAgreement : ∀ fuel : Nat,
    (∀ n : Node, wfN n = true → sizeN n ≤ fuel →
      processNodeJs fuel (encode n) = .ok (.vstr (processNode n)))
    ∧ (∀ l : NodeList, wfNL l = true → sizeNL l + 2 ≤ fuel →
      jsMapProcess fuel (.varr (encodeNL l)) = .ok ((processNodes l).map JsValue.vstr))
    ∧ (∀ l : NodeList, wfNL l = true → sizeNL l + 1 ≤ fuel →
      mapProcessListJs fuel (encodeNL l) = .ok ((processNodes l).map JsValue.vstr))
    ∧ (∀ (l : NodeList) (pfx : String), wfNL l = true → sizeNL l + 2 ≤ fuel →
      mapListItemsJs fuel (.varr (encodeNL l)) pfx = .ok (processItems l pfx))
    ∧ (∀ (l : NodeList) (pfx : String), wfNL l = true → sizeNL l + 1 ≤ fuel →
      mapListItemListJs fuel (encodeNL l) pfx = .ok (processItems l pfx))
    ∧ (∀ (l : NodeList) (i : Nat), wfNL l = true → sizeNL l + 2 ≤ fuel →
      mapOrderedItemsJs fuel (.varr (encodeNL l)) i = .ok (processOrderedItems l i))
    ∧ (∀ (l : NodeList) (i : Nat), wfNL l = true → sizeNL l + 1 ≤ fuel →
      mapOrderedItemListJs fuel (encodeNL l) i = .ok (processOrderedItems l i))
    ∧ (∀ l : NodeList, wfNL l = true → sizeNL l + 2 ≤ fuel →
      mapTaskItemsJs fuel (.varr (encodeNL l)) = .ok (processTaskItems l))
    ∧ (∀ l : NodeList, wfNL l = true → sizeNL l + 1 ≤ fuel →
      mapTaskItemListJs fuel (encodeNL l) = .ok (processTaskItems l))
    ∧ (∀ (item : Node) (pfx : String), wfN item = true → sizeN item ≤ fuel →
      processListItemJs fuel (encode item) pfx = .ok (processListItem item pfx))
    ∧ (∀ item : Node, wfN item = true → sizeN item ≤ fuel →
      processTaskItemJs fuel (encode item) = .ok (processTaskItem item)) := by
  intro fuel
  induction fuel with
  | zero =>
    refine ⟨fun n _ hsz => absurd hsz (by have := sizeN_ge n; omega),
      fun l _ hsz => absurd hsz (by omega),
      fun l _ hsz => absurd hsz (by omega),
      fun l pfx _ hsz => absurd hsz (by omega),
      fun l pfx _ hsz => absurd hsz (by omega),
      fun l i _ hsz => absurd hsz (by omega),
      fun l i _ hsz => absurd hsz (by omega),
      fun l _ hsz => absurd hsz (by omega),
      fun l _ hsz => absurd hsz (by omega),
      fun item pfx _ hsz => absurd hsz (by have := sizeN_ge item; omega),
      fun item _ hsz => absurd hsz (by have := sizeN_ge item; omega)⟩
  | succ f ih =>
    obtain ⟨ihA, ihB, ihC, ihD, ihE, ihF, ihG, ihH, ihI, ihJ, ihK⟩ := ih
    refine ⟨?_, ?_, ?_, ?_, ?_, ?_, ?_, ?_, ?_, ?_, ?_⟩
    · intro n hwf hsz
      cases n with
      | mk t a ms s hc cs =>
        obtain ⟨hnil, hwfcs⟩ := wfN_destruct t a ms s hc cs hwf
        have hszcs : sizeNL cs + 3 ≤ f + 1 := by simpa [sizeN] using hsz
        have hB := ihB cs hwfcs (by omega)
        simp only [processNodeJs, encodeJs_type, encodeJs_content, except_bind_ok]
        rw [jsOr_content hc cs hnil]
        have hDb := ihD cs "-" hwfcs (by omega)
        have hFo := ihF cs 0 hwfcs (by omega)
        have hHt := ihH cs hwfcs (by omega)
        split
        -- doc
        · rw [hB]
          simp only [except_bind_ok]
          rw [jsJoin_vstr]
          rfl
        -- paragraph
        · rw [hB]
          simp only [except_bind_ok]
          rw [jsJoin_vstr, attrJs_textAlign]
          simp only [except_bind_ok]
          cases hta : a.textAlign with
          | none =>
            simp [processNode, hta, encOptStr, truthy]
            rfl
          | some al =>
            by_cases h1 : al = "" <;> by_cases h2 : al = "left" <;>
              simp [processNode, hta, encOptStr, truthy, toStr_vstr, h1, h2] <;> rfl
        -- heading
        · rw [attrJs_level]
          simp only [except_bind_ok]
          rw [hB]
          simp only [except_bind_ok]
          rw [jsOr_encOptNat_one, jsRepeat_ofNat]
          simp only [except_bind_ok]
          rw [jsJoin_vstr]
          rfl
        -- text
        · simp [encodeJs_text, encodeJs_marks, jsOr_vstr_empty, truthy, jsIterate,
            applyMarksJs_encode, except_bind_ok]
          rfl
        -- codeBlock
        · rw [attrJs_language]
          simp only [except_bind_ok]
          rw [hB]
          simp only [except_bind_ok]
          rw [jsOr_encOptStr, jsJoin_vstr]
          simp only [toStr_vstr]
          rfl
        -- bulletList
        · rw [hDb]
          simp only [except_bind_ok]
          rfl
        -- orderedList
        · rw [hFo]
          simp only [except_bind_ok]
          rfl
        -- taskList
        · rw [hHt]
          simp only [except_bind_ok]
          rfl
        -- taskItem
        · rw [attrJs_checked]
          simp only [except_bind_ok]
          rw [hB]
          simp only [except_bind_ok]
          rw [truthy_checked, jsJoin_vstr]
          cases hgd : a.checked.getD false <;> simp [processNode, hgd] <;> rfl
        -- listItem
        · rw [hB]
          simp only [except_bind_ok]
          rw [jsJoin_vstr]
          rfl
        -- blockquote
        · rw [hB]
          simp only [except_bind_ok]
          rw [map_prefix_vstr]
          rfl
        -- horizontalRule
        · rfl
        -- hardBreak
        · rfl
        -- image
        · rw [attrJs_alt]
          simp only [except_bind_ok]
          rw [attrJs_src]
          simp only [except_bind_ok]
          rw [attrJs_caption]
          simp only [except_bind_ok]
          rw [jsOr_encOptStr, jsOr_encOptStr, jsOr_encOptStr]
          by_cases hcap : jsOrStr a.caption "" = "" <;>
            simp [processNode, truthy, toStr_vstr, hcap] <;> rfl
        -- video
        · rw [attrJs_src]
          simp only [except_bind_ok]
          rw [jsOr_encOptStr]
          simp only [toStr_vstr]
          rfl
        -- youtube
        · rw [attrJs_src]
          simp only [except_bind_ok]
          rw [jsOr_encOptStr]
          simp only [toStr_vstr]
          rfl
        -- table
        · rw [hB]
          simp only [except_bind_ok]
          rw [jsJoin_vstr]
          rfl
        -- tableRow
        · rw [hB]
          simp only [except_bind_ok]
          rw [jsJoin_vstr]
          rfl
        -- tableCell
        · rw [hB]
          simp only [except_bind_ok]
          rw [jsJoin_vstr]
          rfl
        -- tableHeader
        · rw [hB]
          simp only [except_bind_ok]
          rw [jsJoin_vstr]
          rfl
        -- callout
        · rw [attrJs_type]
          simp only [except_bind_ok]
          rw [hB]
          simp only [except_bind_ok]
          rw [jsOr_encOptStr, jsJoin_vstr, jsToUpper_vstr]
          simp only [except_bind_ok]
          rfl
        -- details
        · rw [hB]
          simp only [except_bind_ok]
          rw [jsJoin_vstr]
          rfl
        -- detailsSummary
        · rw [hB]
          simp only [except_bind_ok]
          rw [jsJoin_vstr]
          rfl
        -- detailsContent
        · rw [hB]
          simp only [except_bind_ok]
          rw [jsJoin_vstr]
          rfl
        -- mathInline
        · rw [attrJs_latex]
          simp only [except_bind_ok]
          rw [jsOr_encOptStr]
          simp only [toStr_vstr]
          rfl
        -- mathBlock
        · rw [attrJs_latex]
          simp only [except_bind_ok]
          rw [jsOr_encOptStr]
          simp only [toStr_vstr]
          rfl
        -- mention
        · rw [attrJs_label]
          simp only [except_bind_ok]
          rw [attrJs_id]
          simp only [except_bind_ok]
          rw [jsOr_encOptStr a.id "", jsOr_encOptStr a.label (jsOrStr a.id "")]
          simp only [toStr_vstr]
          rfl
        -- attachment
        · rw [attrJs_fileName]
          simp only [except_bind_ok]
          rw [attrJs_src]
          simp only [except_bind_ok]
          rw [jsOr_encOptStr, jsOr_encOptStr]
          simp only [toStr_vstr]
          rfl
        -- drawio
        · rfl
        -- excalidraw
        · rfl
        -- embed
        · rw [attrJs_src]
          simp only [except_bind_ok]
          rw [jsOr_encOptStr]
          simp only [toStr_vstr]
          rfl
        -- subpages
        · rfl
        -- default
        · rw [hB]
          simp only [except_bind_ok]
          rw [jsJoin_vstr]
          congr 1
          congr 1
          symm
          simp only [processNode]

    · intro l hwf hsz
      simp only [jsMapProcess]
      exact ihC l hwf (by omega)
    · intro l hwf hsz
      cases l with
      | nil => rfl
      | cons c rest =>
        obtain ⟨hc1, hrest⟩ := wfNL_destruct c rest hwf
        have hs : sizeN c + sizeNL rest + 1 + 1 ≤ f + 1 := by simpa [sizeNL] using hsz
        have hg := sizeN_ge c
        simp only [encodeNL, mapProcessListJs]
        rw [ihA c hc1 (by omega)]
        simp only [except_bind_ok]
        rw [ihC rest hrest (by omega)]
        simp [processNodes]
    · intro l pfx hwf hsz
      simp only [mapListItemsJs]
      exact ihE l pfx hwf (by omega)
    · intro l pfx hwf hsz
      cases l with
      | nil => rfl
      | cons c rest =>
        obtain ⟨hc1, hrest⟩ := wfNL_destruct c rest hwf
        have hs : sizeN c + sizeNL rest + 1 + 1 ≤ f + 1 := by simpa [sizeNL] using hsz
        have hg := sizeN_ge c
        simp only [encodeNL, mapListItemListJs]
        rw [ihJ c pfx hc1 (by omega)]
        simp only [except_bind_ok]
        rw [ihE rest pfx hrest (by omega)]
        simp [processItems]
    · intro l i hwf hsz
      simp only [mapOrderedItemsJs]
      exact ihG l i hwf (by omega)
    · intro l i hwf hsz
      cases l with
      | nil => rfl
      | cons c rest =>
        obtain ⟨hc1, hrest⟩ := wfNL_destruct c rest hwf
        have hs : sizeN c + sizeNL rest + 1 + 1 ≤ f + 1 := by simpa [sizeNL] using hsz
        have hg := sizeN_ge c
        simp only [encodeNL, mapOrderedItemListJs]
        rw [ihJ c (toString (i + 1) ++ ".") hc1 (by omega)]
        simp only [except_bind_ok]
        rw [ihG rest (i + 1) hrest (by omega)]
        simp [processOrderedItems]
    · intro l hwf hsz
      simp only [mapTaskItemsJs]
      exact ihI l hwf (by omega)
    · intro l hwf hsz
      cases l with
      | nil => rfl
      | cons c rest =>
        obtain ⟨hc1, hrest⟩ := wfNL_destruct c rest hwf
        have hs : sizeN c + sizeNL rest + 1 + 1 ≤ f + 1 := by simpa [sizeNL] using hsz
        have hg := sizeN_ge c
        simp only [encodeNL, mapTaskItemListJs]
        rw [ihK c hc1 (by omega)]
        simp only [except_bind_ok]
        rw [ihI rest hrest (by omega)]
        simp [processTaskItems]
    · intro item pfx hwf hsz
      cases item with
      | mk t a ms s hc cs =>
        obtain ⟨hnil, hwfcs⟩ := wfN_destruct t a ms s hc cs hwf
        have hszcs : sizeNL cs + 3 ≤ f + 1 := by simpa [sizeN] using hsz
        simp only [processListItemJs, encodeJs_content, except_bind_ok]
        rw [jsOr_content hc cs hnil]
        rw [ihB cs hwfcs (by omega)]
        simp only [except_bind_ok]
        rw [map_toStr_vstr]
        rfl
    · intro item hwf hsz
      cases item with
      | mk t a ms s hc cs =>
        obtain ⟨hnil, hwfcs⟩ := wfN_destruct t a ms s hc cs hwf
        have hszcs : sizeNL cs + 3 ≤ f + 1 := by simpa [sizeN] using hsz
        simp only [processTaskItemJs, attrJs_checked, except_bind_ok, encodeJs_content]
        rw [jsOr_content hc cs hnil, truthy_checked, ihB cs hwfcs (by omega)]
        simp only [except_bind_ok]
        rw [jsJoin_vstr]
        cases hgd : a.checked.getD false <;> simp [processTaskItem, hgd] <;> rfl

/-- C3 amended: the converter is total on every well formed DocumentNode
tree: run under JavaScript semantics on the encoded tree with any fuel
bound of at least the tree size, it raises no exception and returns
exactly the string computed by the pure embedding. Totality does not
extend to arbitrary malformed values, where a property read on a null
child throws a TypeError. -/
theorem c3_amended_agrees (x : Option Node) (fuel : Nat)
    (hwf : wfOpt x = true) (hsz : sizeOpt x ≤ fuel) :
    convertJs fuel (encodeOpt x) = .ok (convertProseMirrorToMarkdown x) := by
  cases x with
  | none => rfl
  | some r =>
    cases r with
    | mk t a ms s hc cs =>
      cases hc with
      | false => rfl
      | true =>
        have hA := (jsAgreement fuel).1 (.mk t a ms s true cs) hwf hsz
        have hg1 : truthy (encode (.mk t a ms s true cs)) = true := rfl
        have hg2 : getProp (encode (.mk t a ms s true cs)) "content"
            = .ok (.varr (encodeNL cs)) := rfl
        simp [convertJs, encodeOpt, hg1, hg2, hA, except_bind_ok]
        rfl


theorem c3_amended_agrees_witness :
    wfOpt (some (mkNode "doc" [mkText "hi"])) = true
    ∧ sizeOpt (some (mkNode "doc" [mkText "hi"])) ≤ 10
    ∧ convertJs 10 (encodeOpt (some (mkNode "doc" [mkText "hi"])))
        = .ok (convertProseMirrorToMarkdown (some (mkNode "doc" [mkText "hi"]))) :=
  ⟨by decide, by decide,
    c3_amended_agrees (some (mkNode "doc" [mkText "hi"])) 10 (by decide) (by decide)⟩
